import Mathlib

/-!
Verification of the NetNews feed ingestion and summarization pipeline
(`src/core/main.py`, with the presentation query from `src/web/app.py`).

The embedding models:
- `get_summary_from_AI` (src/core/main.py lines 15-60): input truncation and
  the bounded retry loop around the external summarization service;
- `generate_summaries` (lines 63-164): the per-feed processing loop, the
  dedup existence check, record insertion with commit-per-insert, the
  outcome counters, and the socket-default-timeout bracket around the fetch;
- `cleanup_old_entries` (lines 185-201): the retention purge;
- the sequential driver loop of `main` (lines 374-380);
- the by-date query of the web layer (src/web/app.py lines 29-35).

External collaborators are oracles: the summarization service is a function
from attempt index and sent text to either an exception or a response
content; the store-level insert outcome is a boolean oracle; the fetch
result of a feed URL is an input.  Dates are integers (days).
-/

namespace NetNews

/-- One row of the `news` table: feed, title, link, summary, created_date
(`created_date DATE DEFAULT CURRENT_DATE`, modelled as an integer day). -/
structure StoryRecord where
  feed : String
  title : String
  link : String
  summary : String
  created_date : Int
deriving Repr, DecidableEq

/-- The `news` table, in insertion order. -/
abbrev Store := List StoryRecord

/-- The dedup existence check `SELECT 1 FROM news WHERE title = ?`
(src/core/main.py line 127): true iff some stored row has exactly this
title string. -/
def existsTitle (store : Store) (t : String) : Bool :=
  store.any (fun r => r.title == t)

/-- `max_length = 4000` of `get_summary_from_AI` (line 32). -/
def maxLength : Nat := 4000

/-- Input capping of `get_summary_from_AI` (lines 33-35): a text longer
than `maxLength` is truncated to `maxLength` characters (`text[:4000]`),
shorter text is sent unmodified. -/
def truncateText (text : String) : String :=
  if text.length > maxLength then text.take maxLength else text

/-- Outcome of one call to the external summarization service: either an
exception (any failure: network, malformed response, rate limit, timeout)
or the content of the response's single choice
(`response.choices[0].message.content`). -/
abbrev ServiceCall := Nat → String → Except Unit String

/-- The retry loop of `get_summary_from_AI` (lines 37-60):
`for attempt in range(max_retries)` with `fuel` attempts remaining and
`attempt` the current index.  On success the content is returned at once; on
an exception the next attempt runs (after a backoff sleep, irrelevant to the
value); when the last attempt fails the result is `none`.  The second
component counts the service calls actually made. -/
def summaryAttempts (service : ServiceCall) (sent : String) :
    Nat → Nat → Option String × Nat
  | _, 0 => (none, 0)
  | attempt, fuel + 1 =>
    match service attempt sent with
    | .ok content => (some content, 1)
    | .error _ =>
      let r := summaryAttempts service sent (attempt + 1) fuel
      (r.1, r.2 + 1)

/-- `get_summary_from_AI` (src/core/main.py lines 15-60): truncate the
input, then try the service up to `max_retries` times, absorbing every
failure; returns the summary (or `none`) together with the number of
service calls made. -/
def get_summary_from_AI (service : ServiceCall) (text : String)
    (max_retries : Nat) : Option String × Nat :=
  summaryAttempts service (truncateText text) 0 max_retries

/-! ### The per-feed processing pipeline -/

/-- One parsed feed entry.  `feedparser` entries carry optional attributes:
`hasattr(entry, 'title')`, `hasattr(entry, 'description')`,
`hasattr(entry, 'link')` (src/core/main.py lines 120, 137). -/
structure Entry where
  title : Option String
  description : Option String
  link : Option String
deriving Repr, DecidableEq

/-- Outcome of fetching and parsing one feed URL: an ordered entry list, a
timeout (`TimeoutError`/`socket.timeout`, caught at line 159), or any other
transport or parse failure (caught at line 162). -/
inductive FeedResult where
  | ok (entries : List Entry)
  | timeout
  | fetchError
deriving Repr, DecidableEq

/-- Per-feed counters of `generate_summaries` (lines 108-111), initialised
to zero before the entry loop. -/
structure RunStats where
  processed : Nat
  skipped : Nat
  failed : Nat
  added : Nat
deriving Repr, DecidableEq

/-- External collaborators of one run, fixed for the run: the summarization
service oracle, the store-level insert outcome oracle (`sqlite3.Error` on
`INSERT`+`commit` iff `false`), the `max_retries` tunable, and the
ingestion date assigned by `created_date DATE DEFAULT CURRENT_DATE`. -/
structure Env where
  service : ServiceCall
  insertOk : StoryRecord → Bool
  max_retries : Nat
  today : Int

/-- State threaded through the entry loop: the store, the counters, and the
trace of records for which an `INSERT` was attempted (instrumentation:
each reached insert statement appends its record once). -/
structure ProcState where
  store : Store
  stats : RunStats
  attempts : List StoryRecord
deriving Repr, DecidableEq

/-- The body of the entry loop of `generate_summaries`
(src/core/main.py lines 117-155) for one considered entry:
increment `processed`; skip (counting `skipped`) an entry missing title or
description; skip (counting `skipped`) an entry whose title is already
stored; otherwise summarize the description and, on a summary, attempt the
insert — `added` on success, `failed` on a database error — and `failed`
when no summary was produced. -/
def processEntry (env : Env) (feed_name : String) (st : ProcState)
    (e : Entry) : ProcState :=
  let stats := st.stats
  match e.title, e.description with
  | none, _ =>
    { st with stats := { stats with processed := stats.processed + 1,
                                    skipped := stats.skipped + 1 } }
  | some _, none =>
    { st with stats := { stats with processed := stats.processed + 1,
                                    skipped := stats.skipped + 1 } }
  | some t, some d =>
    if existsTitle st.store t then
      { st with stats := { stats with processed := stats.processed + 1,
                                      skipped := stats.skipped + 1 } }
    else
      match (get_summary_from_AI env.service d env.max_retries).1 with
      | none =>
        { st with stats := { stats with processed := stats.processed + 1,
                                        failed := stats.failed + 1 } }
      | some summary =>
        let row : StoryRecord :=
          { feed := feed_name, title := t, link := e.link.getD "",
            summary := summary, created_date := env.today }
        if env.insertOk row then
          { store := st.store ++ [row],
            stats := { stats with processed := stats.processed + 1,
                                  added := stats.added + 1 },
            attempts := st.attempts ++ [row] }
        else
          { store := st.store,
            stats := { stats with processed := stats.processed + 1,
                                  failed := stats.failed + 1 },
            attempts := st.attempts ++ [row] }

/-- The entry loop of `generate_summaries` (lines 113-115):
`for i, entry in enumerate(feed.entries): if i >= num_stories: break`,
with `i` the index of the next entry. -/
def processLoop (env : Env) (feed_name : String) (num_stories : Nat) :
    Nat → ProcState → List Entry → ProcState
  | _, st, [] => st
  | i, st, e :: rest =>
    if num_stories ≤ i then st
    else processLoop env feed_name num_stories (i + 1)
      (processEntry env feed_name st e) rest

/-- Zero-initialised counters (lines 108-111). -/
def initStats : RunStats := ⟨0, 0, 0, 0⟩

/-- `generate_summaries` (src/core/main.py lines 63-164) as a store
transformer: on a fetch timeout or error the exception is caught and the
feed contributes nothing (`none` stats, store unchanged); on an empty
entry list the function returns before the loop (line 101-103); otherwise
the entry loop runs and its final counters are reported. -/
def generate_summaries (env : Env) (fetch : FeedResult)
    (feed_name : String) (num_stories : Nat) (store : Store) :
    Store × Option RunStats :=
  match fetch with
  | .timeout => (store, none)
  | .fetchError => (store, none)
  | .ok [] => (store, none)
  | .ok (e :: rest) =>
    let st := processLoop env feed_name num_stories 0
      ⟨store, initStats, []⟩ (e :: rest)
    (st.store, some st.stats)

/-- A resolved feed descriptor `(key, url, num_entries)` from the
configuration (src/core/main.py line 363). -/
structure FeedTask where
  name : String
  url : String
  story_limit : Nat
deriving Repr, DecidableEq

/-- Fetch oracle of one run: the result of fetching each task's URL. -/
abbrev FetchOracle := FeedTask → FeedResult

/-- The sequential driver loop of `main` (src/core/main.py lines 374-380):
each task is processed in configured order inside a `try`/`except` so a
fault in one feed never prevents the next; the per-feed outcome log pairs
each feed name with its reported stats (`none` when the feed failed or was
empty). -/
def runFeeds (env : Env) (fetchOf : FetchOracle) :
    List FeedTask → Store → Store × List (String × Option RunStats)
  | [], store => (store, [])
  | t :: rest, store =>
    let r := generate_summaries env (fetchOf t) t.name t.story_limit store
    let tail := runFeeds env fetchOf rest r.1
    (tail.1, (t.name, r.2) :: tail.2)

/-- `cleanup_old_entries` (src/core/main.py lines 185-201): delete every
row whose `created_date` is strictly before `now - days_to_keep`; return
the kept store and the number of rows deleted (`cursor.rowcount`). -/
def cleanup_old_entries (store : Store) (today : Int)
    (days_to_keep : Int) : Store × Nat :=
  let cutoff := today - days_to_keep
  (store.filter (fun r => !(decide (r.created_date < cutoff))),
   (store.filter (fun r => decide (r.created_date < cutoff))).length)

/-- One full run of `main` (lines 326-380): retention cleanup first, then
every configured feed sequentially.  Returns the final store, the purge
count, and the per-feed outcome log. -/
def mainRun (env : Env) (fetchOf : FetchOracle) (tasks : List FeedTask)
    (days_to_keep : Int) (store : Store) :
    Store × Nat × List (String × Option RunStats) :=
  let c := cleanup_old_entries store env.today days_to_keep
  let r := runFeeds env fetchOf tasks c.1
  (r.1, c.2, r.2)

/-- The presentation layer's by-date query (src/web/app.py lines 29-35):
`SELECT * FROM news WHERE date(created_date) = date(today)`. -/
def todays_news (store : Store) (today : Int) : Store :=
  store.filter (fun r => r.created_date == today)

/-! ### The socket-default-timeout bracket around the fetch -/

/-- Whether `feedparser.parse` returns entries or raises. -/
inductive FetchOutcome where
  | ok (entries : List Entry)
  | raises
deriving Repr, DecidableEq

/-- The fetch section of `generate_summaries` (src/core/main.py
lines 86-96): save the current process-wide default socket timeout
(`socket.getdefaulttimeout()`, `none` when unset), set it to the feed
timeout read from the environment, run the parse, and restore the saved
value — but the restore at line 96 runs only when the parse returns
normally; when the parse raises, control jumps to the handlers at
lines 159-164 and the restore is skipped.  Returns the default socket
timeout after the block and the entries (or `none` on a raise). -/
def fetchBlock (feedTimeout : Int) (outcome : FetchOutcome)
    (sockTimeout : Option Int) : Option Int × Option (List Entry) :=
  let original := sockTimeout
  let duringFetch : Option Int := some feedTimeout
  match outcome with
  | .ok entries => (original, some entries)
  | .raises => (duringFetch, none)

/-- At most one stored record per distinct title. -/
def UniqueTitles (store : Store) : Prop :=
  store.Pairwise (fun a b => a.title ≠ b.title)

instance (store : Store) : Decidable (UniqueTitles store) := by
  unfold UniqueTitles
  infer_instance


/-- Every stored record carries a non-empty summary text. -/
def NonEmptySummaries (store : Store) : Prop :=
  ∀ r ∈ store, r.summary ≠ ""

instance (store : Store) : Decidable (NonEmptySummaries store) := by
  unfold NonEmptySummaries
  infer_instance

/-- A concrete benign environment for scenario runs: the service succeeds
at once with summary `"sum"`, every insert commits, `max_retries = 3`,
ingestion date 1. -/
def envScenario : Env :=
  ⟨fun _ _ => Except.ok "sum", fun _ => true, 3, 1⟩

/-! ### Lemmas about the retry loop (C2) -/

theorem summaryAttempts_all_fail (service : ServiceCall) (sent : String) :
    ∀ fuel attempt,
      (∀ i, i < fuel → service (attempt + i) sent = .error ()) →
      summaryAttempts service sent attempt fuel = (none, fuel) := by
  intro fuel
  induction fuel with
  | zero => intro attempt _; rfl
  | succ n ih =>
    intro attempt hfail
    have h0 : service attempt sent = .error () := by
      have := hfail 0 (Nat.succ_pos n)
      simpa using this
    have hrec : summaryAttempts service sent (attempt + 1) n = (none, n) := by
      apply ih
      intro i hi
      have := hfail (i + 1) (by omega)
      have harith : attempt + (i + 1) = attempt + 1 + i := by omega
      rwa [harith] at this
    simp [summaryAttempts, h0, hrec]

theorem summaryAttempts_succeeds (service : ServiceCall) (sent : String) :
    ∀ k fuel attempt c, k < fuel →
      (∀ i, i < k → service (attempt + i) sent = .error ()) →
      service (attempt + k) sent = .ok c →
      summaryAttempts service sent attempt fuel = (some c, k + 1) := by
  intro k
  induction k with
  | zero =>
    intro fuel attempt c hk _ hok
    match fuel, hk with
    | fuel + 1, _ =>
      have h0 : service attempt sent = .ok c := by simpa using hok
      simp [summaryAttempts, h0]
  | succ m ih =>
    intro fuel attempt c hk hfail hok
    match fuel, hk with
    | fuel + 1, hk =>
      have h0 : service attempt sent = .error () := by
        have := hfail 0 (Nat.succ_pos m)
        simpa using this
      have hrec : summaryAttempts service sent (attempt + 1) fuel =
          (some c, m + 1) := by
        apply ih fuel (attempt + 1) c (by omega)
        · intro i hi
          have := hfail (i + 1) (by omega)
          have harith : attempt + (i + 1) = attempt + 1 + i := by omega
          rwa [harith] at this
        · have harith : attempt + (m + 1) = attempt + 1 + m := by omega
          rwa [harith] at hok
      simp [summaryAttempts, h0, hrec]

/-- Claim C2: for every text and every `max_retries ≥ 1`, if the service
fails on every call, `get_summary_from_AI` makes exactly `max_retries`
attempts and returns `none` without propagating any exception; if the
service fails on the first `k < max_retries` calls and succeeds on call
`k + 1`, it returns the content of that successful response's single
choice, having made exactly `k + 1` attempts. -/
theorem get_summary_from_AI_retry_bound (service : ServiceCall)
    (text : String) (max_retries : Nat) (hpos : 1 ≤ max_retries) :
    ((∀ i, i < max_retries → service i (truncateText text) = .error ()) →
      get_summary_from_AI service text max_retries = (none, max_retries)) ∧
    (∀ k c, k < max_retries →
      (∀ i, i < k → service i (truncateText text) = .error ()) →
      service k (truncateText text) = .ok c →
      get_summary_from_AI service text max_retries = (some c, k + 1)) := by
  constructor
  · intro hfail
    have := summaryAttempts_all_fail service (truncateText text)
      max_retries 0 (by intro i hi; simpa using hfail i hi)
    simpa [get_summary_from_AI] using this
  · intro k c hk hfail hok
    have := summaryAttempts_succeeds service (truncateText text)
      k max_retries 0 c hk
      (by intro i hi; simpa using hfail i hi) (by simpa using hok)
    simpa [get_summary_from_AI] using this

/-- Witness for C2 at a concrete service that fails once then succeeds:
with `max_retries = 3` the call returns the successful content after
exactly 2 attempts, and with a service that always fails it returns `none`
after exactly 3 attempts. -/
theorem get_summary_from_AI_retry_bound_witness :
    get_summary_from_AI
      (fun i _ => if i = 0 then .error () else .ok "sum") "text" 3 =
      (some "sum", 2) ∧
    get_summary_from_AI (fun _ _ => .error ()) "text" 3 = (none, 3) := by
  constructor
  · exact (get_summary_from_AI_retry_bound
      (fun i _ => if i = 0 then .error () else .ok "sum") "text" 3
      (by decide)).2 1 "sum" (by decide)
      (by intro i hi; interval_cases i <;> rfl) (by rfl)
  · exact (get_summary_from_AI_retry_bound
      (fun _ _ => .error ()) "text" 3 (by decide)).1
      (by intro i _; rfl)

/-! ### Retention cleanup (C4) -/

/-- Claim C4: for every store state and every `days_to_keep`,
`cleanup_old_entries` deletes exactly those records whose `created_date` is
strictly before `today - days_to_keep` (a record kept iff it was stored and
is not strictly older than the cutoff), a record dated exactly
`today - days_to_keep` is kept, the returned count is the number of records
deleted, and the operation is idempotent: an immediately repeated call with
no intervening inserts deletes zero records. -/
theorem cleanup_old_entries_spec (store : Store) (today days_to_keep : Int) :
    (∀ r : StoryRecord,
      r ∈ (cleanup_old_entries store today days_to_keep).1 ↔
        (r ∈ store ∧ ¬(r.created_date < today - days_to_keep))) ∧
    (∀ r : StoryRecord, r ∈ store →
      r.created_date = today - days_to_keep →
      r ∈ (cleanup_old_entries store today days_to_keep).1) ∧
    (cleanup_old_entries store today days_to_keep).2 =
      store.length - (cleanup_old_entries store today days_to_keep).1.length ∧
    cleanup_old_entries (cleanup_old_entries store today days_to_keep).1
        today days_to_keep =
      ((cleanup_old_entries store today days_to_keep).1, 0) := by
  refine ⟨?_, ?_, ?_, ?_⟩
  · intro r
    simp [cleanup_old_entries, List.mem_filter]
  · intro r hr hdate
    simp [cleanup_old_entries, List.mem_filter, hr, hdate]
  · have h := List.length_eq_length_filter_add
      (l := store) (fun r => decide (r.created_date < today - days_to_keep))
    simp only [cleanup_old_entries]
    omega
  · have hkeep : (cleanup_old_entries store today days_to_keep).1.filter
        (fun r => !(decide (r.created_date < today - days_to_keep))) =
        (cleanup_old_entries store today days_to_keep).1 := by
      rw [List.filter_eq_self]
      intro a ha
      simp only [cleanup_old_entries, List.mem_filter] at ha
      exact ha.2
    have hdel : (cleanup_old_entries store today days_to_keep).1.filter
        (fun r => decide (r.created_date < today - days_to_keep)) = [] := by
      rw [List.filter_eq_nil_iff]
      intro a ha
      simp only [cleanup_old_entries, List.mem_filter] at ha
      simpa using ha.2
    simp only [cleanup_old_entries] at hkeep hdel ⊢
    rw [hkeep, hdel]
    rfl

/-- Witness for C4 at a concrete store: a record dated exactly at the
cutoff (`today - days_to_keep = 0`) is kept by the cleanup. -/
theorem cleanup_old_entries_spec_witness :
    (⟨"f", "a", "", "s", (0 : Int)⟩ : StoryRecord) ∈
      (cleanup_old_entries [⟨"f", "a", "", "s", (0 : Int)⟩] 30 30).1 :=
  (cleanup_old_entries_spec [⟨"f", "a", "", "s", (0 : Int)⟩] 30 30).2.1
    ⟨"f", "a", "", "s", (0 : Int)⟩ (by simp) (by decide)

/-! ### The title-uniqueness invariant (C1) -/

theorem existsTitle_eq_false_iff (store : Store) (t : String) :
    existsTitle store t = false ↔ ∀ r ∈ store, r.title ≠ t := by
  simp [existsTitle]

theorem uniqueTitles_append_fresh (store : Store) (row : StoryRecord)
    (h : UniqueTitles store) (hfresh : existsTitle store row.title = false) :
    UniqueTitles (store ++ [row]) := by
  rw [UniqueTitles, List.pairwise_append]
  refine ⟨h, List.pairwise_singleton _ _, ?_⟩
  intro a ha b hb
  have hb' : b = row := by simpa using hb
  rw [hb']
  exact (existsTitle_eq_false_iff store row.title).1 hfresh a ha

theorem processEntry_preserves_unique (env : Env) (fn : String)
    (st : ProcState) (e : Entry) (h : UniqueTitles st.store) :
    UniqueTitles (processEntry env fn st e).store := by
  rcases e with ⟨t, d, l⟩
  cases t with
  | none => simpa [processEntry] using h
  | some t =>
    cases d with
    | none => simpa [processEntry] using h
    | some d =>
      simp only [processEntry]
      by_cases hex : existsTitle st.store t
      · simpa [hex] using h
      · simp only [hex, if_false, Bool.false_eq_true]
        cases hsum : (get_summary_from_AI env.service d env.max_retries).1 with
        | none => simpa using h
        | some s =>
          simp only []
          by_cases hins : env.insertOk
              { feed := fn, title := t, link := l.getD "",
                summary := s, created_date := env.today }
          · simp only [hins, if_true]
            exact uniqueTitles_append_fresh st.store _ h
              (by simpa using Bool.of_not_eq_true hex)
          · simpa [hins] using h

theorem processLoop_preserves_unique (env : Env) (fn : String) (n : Nat) :
    ∀ (entries : List Entry) (i : Nat) (st : ProcState),
      UniqueTitles st.store →
      UniqueTitles (processLoop env fn n i st entries).store := by
  intro entries
  induction entries with
  | nil => intro i st h; simpa [processLoop] using h
  | cons e rest ih =>
    intro i st h
    simp only [processLoop]
    by_cases hle : n ≤ i
    · simpa [hle] using h
    · simp only [hle, if_false]
      exact ih (i + 1) _ (processEntry_preserves_unique env fn st e h)

theorem generate_summaries_preserves_unique (env : Env) (fetch : FeedResult)
    (fn : String) (s : Nat) (store : Store) (h : UniqueTitles store) :
    UniqueTitles (generate_summaries env fetch fn s store).1 := by
  cases fetch with
  | timeout => simpa [generate_summaries] using h
  | fetchError => simpa [generate_summaries] using h
  | ok entries =>
    cases entries with
    | nil => simpa [generate_summaries] using h
    | cons e rest =>
      simpa [generate_summaries] using
        processLoop_preserves_unique env fn s (e :: rest) 0
          ⟨store, initStats, []⟩ h

theorem runFeeds_preserves_unique (env : Env) (fetchOf : FetchOracle) :
    ∀ (tasks : List FeedTask) (store : Store), UniqueTitles store →
      UniqueTitles (runFeeds env fetchOf tasks store).1 := by
  intro tasks
  induction tasks with
  | nil => intro store h; simpa [runFeeds] using h
  | cons t rest ih =>
    intro store h
    simp only [runFeeds]
    exact ih _ (generate_summaries_preserves_unique env (fetchOf t)
      t.name t.story_limit store h)

theorem cleanup_preserves_unique (store : Store) (today days : Int)
    (h : UniqueTitles store) :
    UniqueTitles (cleanup_old_entries store today days).1 :=
  List.Pairwise.sublist (List.filter_sublist store) h

/-- Claim C1: starting from a store with at most one record per distinct
title, every pipeline operation preserves that invariant: the retention
purge preserves it, and after the purge, processing any prefix of the
configured feed list (each feed's dedup checks and insertions included)
leaves a store with at most one record per distinct title, regardless of
feed or run. -/
theorem pipeline_preserves_unique_titles (env : Env) (fetchOf : FetchOracle)
    (tasks : List FeedTask) (days_to_keep : Int) (store : Store)
    (h : UniqueTitles store) :
    UniqueTitles (cleanup_old_entries store env.today days_to_keep).1 ∧
    ∀ k : Nat, UniqueTitles
      ((runFeeds env fetchOf (tasks.take k)
        (cleanup_old_entries store env.today days_to_keep).1).1) := by
  have hc := cleanup_preserves_unique store env.today days_to_keep h
  exact ⟨hc, fun k => runFeeds_preserves_unique env fetchOf (tasks.take k) _ hc⟩

/-- Witness for C1: a concrete one-feed run from a one-record store with a
distinct-title invariant. -/
theorem pipeline_preserves_unique_titles_witness :
    UniqueTitles (cleanup_old_entries
      [⟨"f", "a", "", "s", (0 : Int)⟩] 0 30).1 ∧
    ∀ k : Nat, UniqueTitles
      ((runFeeds ⟨fun _ _ => Except.ok "sum", fun _ => true, 3, 0⟩
        (fun _ => FeedResult.ok [⟨some "b", some "d", none⟩])
        ([⟨"tech", "u", 2⟩].take k)
        (cleanup_old_entries [⟨"f", "a", "", "s", (0 : Int)⟩] 0 30).1).1) :=
  pipeline_preserves_unique_titles
    ⟨fun _ _ => Except.ok "sum", fun _ => true, 3, 0⟩
    (fun _ => FeedResult.ok [⟨some "b", some "d", none⟩])
    [⟨"tech", "u", 2⟩] 30 [⟨"f", "a", "", "s", (0 : Int)⟩] (by decide)

/-! ### The story-limit prefix (C3) -/

theorem processEntry_processed (env : Env) (fn : String) (st : ProcState)
    (e : Entry) :
    (processEntry env fn st e).stats.processed = st.stats.processed + 1 := by
  rcases e with ⟨t, d, l⟩
  cases t with
  | none => simp [processEntry]
  | some t =>
    cases d with
    | none => simp [processEntry]
    | some d =>
      simp only [processEntry]
      by_cases hex : existsTitle st.store t
      · simp [hex]
      · simp only [hex, Bool.false_eq_true, if_false]
        cases (get_summary_from_AI env.service d env.max_retries).1 with
        | none => simp
        | some s =>
          by_cases hins : env.insertOk
              { feed := fn, title := t, link := l.getD "",
                summary := s, created_date := env.today }
          · simp [hins]
          · simp [hins]

theorem processLoop_take_agrees (env : Env) (fn : String) (s : Nat) :
    ∀ (e₁ e₂ : List Entry) (i : Nat) (st : ProcState),
      e₁.take (s - i) = e₂.take (s - i) →
      processLoop env fn s i st e₁ = processLoop env fn s i st e₂ := by
  intro e₁
  induction e₁ with
  | nil =>
    intro e₂ i st h
    cases e₂ with
    | nil => rfl
    | cons b r =>
      by_cases hle : s ≤ i
      · simp [processLoop, hle]
      · exfalso
        obtain ⟨m, hm⟩ : ∃ m, s - i = m + 1 := ⟨s - i - 1, by omega⟩
        rw [hm] at h
        simp at h
  | cons a r₁ ih =>
    intro e₂ i st h
    by_cases hle : s ≤ i
    · cases e₂ <;> simp [processLoop, hle]
    · obtain ⟨m, hm⟩ : ∃ m, s - i = m + 1 := ⟨s - i - 1, by omega⟩
      rw [hm] at h
      cases e₂ with
      | nil => simp at h
      | cons b r₂ =>
        simp only [List.take_succ_cons, List.cons.injEq] at h
        obtain ⟨hab, hr⟩ := h
        subst hab
        simp only [processLoop]
        rw [if_neg hle, if_neg hle]
        apply ih
        have hmi : s - (i + 1) = m := by omega
        rw [hmi]
        exact hr

theorem processLoop_processed (env : Env) (fn : String) (s : Nat) :
    ∀ (entries : List Entry) (i : Nat) (st : ProcState),
      (processLoop env fn s i st entries).stats.processed =
        st.stats.processed + min (s - i) entries.length := by
  intro entries
  induction entries with
  | nil => intro i st; simp [processLoop]
  | cons e rest ih =>
    intro i st
    by_cases hle : s ≤ i
    · have hz : s - i = 0 := by omega
      simp [processLoop, hle, hz]
    · simp only [processLoop]
      rw [if_neg hle, ih (i + 1) (processEntry env fn st e),
        processEntry_processed env fn st e]
      simp only [List.length_cons]
      omega

/-- Claim C3: the entry loop examines exactly the first
`min (story_limit, n)` entries in feed order — a simple prefix: the
outcome depends only on the first `story_limit` entries (so no entry
beyond that prefix is ever examined), the number of entries considered is
exactly `min story_limit n`, and the spec's scenario — `story_limit = 2`,
three entries with entry 1 new, entry 2's title already stored, entry 3
new, summarization and insertion succeeding — yields stats
`processed = 2, added = 1, skipped = 1, failed = 0` with entry 3 never
examined. -/
theorem story_limit_bounds_examined (env : Env) (fn : String) (s : Nat)
    (st : ProcState) :
    (∀ e₁ e₂ : List Entry, e₁.take s = e₂.take s →
      processLoop env fn s 0 st e₁ = processLoop env fn s 0 st e₂) ∧
    (∀ entries : List Entry,
      (processLoop env fn s 0 st entries).stats.processed =
        st.stats.processed + min s entries.length) ∧
    generate_summaries envScenario
      (.ok [⟨some "t1", some "d1", some "l1"⟩,
            ⟨some "t2", some "d2", some "l2"⟩,
            ⟨some "t3", some "d3", some "l3"⟩]) "tech" 2
      [⟨"old", "t2", "", "s2", 0⟩] =
    ([⟨"old", "t2", "", "s2", 0⟩, ⟨"tech", "t1", "l1", "sum", 1⟩],
     some ⟨2, 1, 0, 1⟩) := by
  refine ⟨?_, ?_, ?_⟩
  · intro e₁ e₂ h
    exact processLoop_take_agrees env fn s e₁ e₂ 0 st (by simpa using h)
  · intro entries
    simpa using processLoop_processed env fn s entries 0 st
  · rfl

/-- Witness for C3: two concrete entry lists agreeing on their first two
entries are processed identically with `story_limit = 2`. -/
theorem story_limit_bounds_examined_witness :
    processLoop envScenario "tech" 2 0 ⟨[], initStats, []⟩
      [⟨some "t1", some "d1", none⟩, ⟨some "t2", some "d2", none⟩,
       ⟨some "t3", some "d3", none⟩] =
    processLoop envScenario "tech" 2 0 ⟨[], initStats, []⟩
      [⟨some "t1", some "d1", none⟩, ⟨some "t2", some "d2", none⟩,
       ⟨some "x", some "y", some "z"⟩] :=
  (story_limit_bounds_examined envScenario "tech" 2
    ⟨[], initStats, []⟩).1
    [⟨some "t1", some "d1", none⟩, ⟨some "t2", some "d2", none⟩,
     ⟨some "t3", some "d3", none⟩]
    [⟨some "t1", some "d1", none⟩, ⟨some "t2", some "d2", none⟩,
     ⟨some "x", some "y", some "z"⟩] (by rfl)

/-! ### Driver sequencing and feed isolation (C5) -/

theorem generate_summaries_failed_fetch (env : Env) (fetch : FeedResult)
    (fn : String) (s : Nat) (store : Store)
    (h : fetch = .timeout ∨ fetch = .fetchError) :
    generate_summaries env fetch fn s store = (store, none) := by
  rcases h with h | h <;> rw [h] <;> rfl

/-- Claim C5: the driver attempts every configured feed exactly once per
run in configured order (the per-feed log pairs up with the task list),
a feed whose fetch times out or errors contributes nothing and never
prevents subsequent feeds from being processed, and in the concrete
two-feed scenario where feed A times out and feed B succeeds, B's entry is
still summarized and persisted in the same run. -/
theorem driver_feed_isolation (env : Env) (fetchOf : FetchOracle)
    (tasks : List FeedTask) (store : Store) :
    ((runFeeds env fetchOf tasks store).2.map Prod.fst =
      tasks.map FeedTask.name) ∧
    (∀ (t : FeedTask) (rest : List FeedTask) (s : Store),
      (fetchOf t = .timeout ∨ fetchOf t = .fetchError) →
      runFeeds env fetchOf (t :: rest) s =
        ((runFeeds env fetchOf rest s).1,
         (t.name, none) :: (runFeeds env fetchOf rest s).2)) ∧
    runFeeds envScenario
      (fun t => if t.name == "A" then .timeout
                else .ok [⟨some "tB", some "dB", some "lB"⟩])
      [⟨"A", "uA", 2⟩, ⟨"B", "uB", 2⟩] [] =
      ([⟨"B", "tB", "lB", "sum", 1⟩],
       [("A", none), ("B", some ⟨1, 0, 0, 1⟩)]) := by
  refine ⟨?_, ?_, ?_⟩
  · induction tasks generalizing store with
    | nil => rfl
    | cons t rest ih => simp [runFeeds, ih]
  · intro t rest s h
    simp only [runFeeds, generate_summaries_failed_fetch env (fetchOf t)
      t.name t.story_limit s h]
  · rfl

/-- Witness for C5: a feed whose fetch times out leaves the store exactly
as a run without it. -/
theorem driver_feed_isolation_witness :
    runFeeds envScenario (fun _ => FeedResult.timeout) [⟨"A", "u", 1⟩] [] =
      ((runFeeds envScenario (fun _ => FeedResult.timeout) [] []).1,
       ("A", none) ::
         (runFeeds envScenario (fun _ => FeedResult.timeout) [] []).2) :=
  (driver_feed_isolation envScenario (fun _ => FeedResult.timeout)
    [] []).2.1 ⟨"A", "u", 1⟩ [] [] (Or.inl rfl)

/-! ### Counter bookkeeping (C9) -/

theorem processEntry_balance (env : Env) (fn : String) (st : ProcState)
    (e : Entry)
    (h : st.stats.processed =
      st.stats.added + st.stats.skipped + st.stats.failed) :
    (processEntry env fn st e).stats.processed =
      (processEntry env fn st e).stats.added +
      (processEntry env fn st e).stats.skipped +
      (processEntry env fn st e).stats.failed := by
  rcases e with ⟨t, d, l⟩
  cases t with
  | none => simp [processEntry]; omega
  | some t =>
    cases d with
    | none => simp [processEntry]; omega
    | some d =>
      simp only [processEntry]
      by_cases hex : existsTitle st.store t
      · simp [hex]; omega
      · simp only [hex, Bool.false_eq_true, if_false]
        cases (get_summary_from_AI env.service d env.max_retries).1 with
        | none => simp; omega
        | some s =>
          by_cases hins : env.insertOk
              { feed := fn, title := t, link := l.getD "",
                summary := s, created_date := env.today }
          · simp [hins]; omega
          · simp [hins]; omega

theorem processLoop_balance (env : Env) (fn : String) (s : Nat) :
    ∀ (entries : List Entry) (i : Nat) (st : ProcState),
      st.stats.processed =
        st.stats.added + st.stats.skipped + st.stats.failed →
      (processLoop env fn s i st entries).stats.processed =
        (processLoop env fn s i st entries).stats.added +
        (processLoop env fn s i st entries).stats.skipped +
        (processLoop env fn s i st entries).stats.failed := by
  intro entries
  induction entries with
  | nil => intro i st h; simpa [processLoop] using h
  | cons e rest ih =>
    intro i st h
    simp only [processLoop]
    by_cases hle : s ≤ i
    · simpa [hle] using h
    · rw [if_neg hle]
      exact ih (i + 1) _ (processEntry_balance env fn st e h)

/-- Claim C9: for every feed whose fetch succeeds with at least one entry
(so that per-feed stats are reported at all), the tallied counters at feed
completion satisfy `processed = added + skipped + failed`. -/
theorem stats_balance_at_feed_completion (env : Env) (fn : String)
    (entries : List Entry) (s : Nat) (store st' : Store) (stats : RunStats)
    (h : generate_summaries env (.ok entries) fn s store =
      (st', some stats)) :
    stats.processed = stats.added + stats.skipped + stats.failed := by
  cases entries with
  | nil => simp [generate_summaries] at h
  | cons e rest =>
    have hstats :
        (processLoop env fn s 0 ⟨store, initStats, []⟩ (e :: rest)).stats =
          stats := by
      have h2 := congrArg Prod.snd h
      simpa [generate_summaries] using h2
    rw [← hstats]
    exact processLoop_balance env fn s (e :: rest) 0 ⟨store, initStats, []⟩
      (by simp [initStats])

/-- Witness for C9 at the one-entry scenario run: its stats are
`processed = 1 = 1 + 0 + 0`. -/
theorem stats_balance_at_feed_completion_witness :
    (⟨1, 0, 0, 1⟩ : RunStats).processed =
      (⟨1, 0, 0, 1⟩ : RunStats).added + (⟨1, 0, 0, 1⟩ : RunStats).skipped +
      (⟨1, 0, 0, 1⟩ : RunStats).failed :=
  stats_balance_at_feed_completion envScenario "f"
    [⟨some "t", some "d", none⟩] 1 [] [⟨"f", "t", "", "sum", 1⟩]
    ⟨1, 0, 0, 1⟩ (by rfl)

/-! ### Store I/O failure handling (C6, C10) -/

theorem processEntry_insert_fails (env : Env) (fn : String)
    (st : ProcState) (e : Entry) (t d s : String)
    (ht : e.title = some t) (hd : e.description = some d)
    (hnew : existsTitle st.store t = false)
    (hsum : (get_summary_from_AI env.service d env.max_retries).1 = some s)
    (hfail : env.insertOk ⟨fn, t, e.link.getD "", s, env.today⟩ = false) :
    processEntry env fn st e =
      ⟨st.store,
       { st.stats with processed := st.stats.processed + 1,
                       failed := st.stats.failed + 1 },
       st.attempts ++ [⟨fn, t, e.link.getD "", s, env.today⟩]⟩ := by
  rcases e with ⟨et, ed, el⟩
  obtain rfl : et = some t := ht
  obtain rfl : ed = some d := hd
  have hfail' : env.insertOk
      { feed := fn, title := t, link := el.getD "", summary := s,
        created_date := env.today } = false := hfail
  simp only [processEntry, hnew, Bool.false_eq_true, if_false, hsum,
    hfail']

/-- Claim C6: when the store insert for an entry fails with a database
error, the entry is counted as `failed`, the store is unchanged, exactly
one insert is attempted for it (no retry within the run), and the loop
continues with the next entry of the same feed — neither the feed nor the
run is aborted. -/
theorem store_failure_isolated (env : Env) (fn : String) (st : ProcState)
    (e : Entry) (t d s : String) (rest : List Entry) (i n : Nat)
    (ht : e.title = some t) (hd : e.description = some d)
    (hnew : existsTitle st.store t = false)
    (hsum : (get_summary_from_AI env.service d env.max_retries).1 = some s)
    (hfail : env.insertOk ⟨fn, t, e.link.getD "", s, env.today⟩ = false) :
    processEntry env fn st e =
      ⟨st.store,
       { st.stats with processed := st.stats.processed + 1,
                       failed := st.stats.failed + 1 },
       st.attempts ++ [⟨fn, t, e.link.getD "", s, env.today⟩]⟩ ∧
    (i < n →
      processLoop env fn n i st (e :: rest) =
        processLoop env fn n (i + 1) (processEntry env fn st e) rest) := by
  refine ⟨processEntry_insert_fails env fn st e t d s ht hd hnew hsum hfail,
    ?_⟩
  intro hlt
  simp only [processLoop]
  rw [if_neg (by omega)]

/-- Witness for C6: a concrete entry whose insert fails is tallied as
`failed`, the store stays empty, one insert was attempted, and the loop
steps on. -/
theorem store_failure_isolated_witness :
    processEntry ⟨fun _ _ => Except.ok "sum", fun _ => false, 3, 1⟩ "f"
        ⟨[], initStats, []⟩ ⟨some "t", some "d", none⟩ =
      ⟨[], ⟨1, 0, 1, 0⟩, [⟨"f", "t", "", "sum", 1⟩]⟩ ∧
    (0 < 1 →
      processLoop ⟨fun _ _ => Except.ok "sum", fun _ => false, 3, 1⟩ "f" 1 0
          ⟨[], initStats, []⟩ [⟨some "t", some "d", none⟩] =
        processLoop ⟨fun _ _ => Except.ok "sum", fun _ => false, 3, 1⟩ "f" 1
          1 (processEntry ⟨fun _ _ => Except.ok "sum", fun _ => false, 3, 1⟩
            "f" ⟨[], initStats, []⟩ ⟨some "t", some "d", none⟩) []) :=
  store_failure_isolated ⟨fun _ _ => Except.ok "sum", fun _ => false, 3, 1⟩
    "f" ⟨[], initStats, []⟩ ⟨some "t", some "d", none⟩ "t" "d" "sum" [] 0 1
    rfl rfl rfl rfl rfl

/-- Claim C10: if the store insert for an entry fails with a database
error, the store afterwards contains no record with that entry's title —
the failed insert leaves the stored state unchanged — and the same title
remains eligible: a later processing of the same entry, from the resulting
store, with a succeeding insert, appends the record. -/
theorem failed_insert_leaves_title_free (env : Env) (fn : String)
    (st : ProcState) (e : Entry) (t d s : String)
    (ht : e.title = some t) (hd : e.description = some d)
    (hnew : existsTitle st.store t = false)
    (hsum : (get_summary_from_AI env.service d env.max_retries).1 = some s)
    (hfail : env.insertOk ⟨fn, t, e.link.getD "", s, env.today⟩ = false) :
    (processEntry env fn st e).store = st.store ∧
    existsTitle (processEntry env fn st e).store t = false ∧
    (∀ (env₂ : Env) (s₂ : String) (st₂ : ProcState),
      st₂.store = (processEntry env fn st e).store →
      (get_summary_from_AI env₂.service d env₂.max_retries).1 = some s₂ →
      env₂.insertOk ⟨fn, t, e.link.getD "", s₂, env₂.today⟩ = true →
      (processEntry env₂ fn st₂ e).store =
        st₂.store ++ [⟨fn, t, e.link.getD "", s₂, env₂.today⟩]) := by
  have hstep := processEntry_insert_fails env fn st e t d s ht hd hnew hsum
    hfail
  have hstore : (processEntry env fn st e).store = st.store := by
    rw [hstep]
  refine ⟨hstore, by rw [hstore]; exact hnew, ?_⟩
  intro env₂ s₂ st₂ hst₂ hsum₂ hins₂
  have hnew₂ : existsTitle st₂.store t = false := by
    rw [hst₂, hstore]; exact hnew
  rcases e with ⟨et, ed, el⟩
  obtain rfl : et = some t := ht
  obtain rfl : ed = some d := hd
  have hins₂' : env₂.insertOk
      { feed := fn, title := t, link := el.getD "", summary := s₂,
        created_date := env₂.today } = true := hins₂
  simp only [processEntry, hnew₂, Bool.false_eq_true, if_false, hsum₂,
    hins₂', if_true]

/-- Witness for C10: after a failed insert of a fresh title the store is
unchanged and empty of that title, and a later run with a working store
inserts it. -/
theorem failed_insert_leaves_title_free_witness :
    (processEntry ⟨fun _ _ => Except.ok "sum", fun _ => false, 3, 1⟩ "f"
        ⟨[], initStats, []⟩ ⟨some "t", some "d", none⟩).store = [] ∧
    existsTitle (processEntry
        ⟨fun _ _ => Except.ok "sum", fun _ => false, 3, 1⟩ "f"
        ⟨[], initStats, []⟩ ⟨some "t", some "d", none⟩).store "t" = false ∧
    (∀ (env₂ : Env) (s₂ : String) (st₂ : ProcState),
      st₂.store = (processEntry
        ⟨fun _ _ => Except.ok "sum", fun _ => false, 3, 1⟩ "f"
        ⟨[], initStats, []⟩ ⟨some "t", some "d", none⟩).store →
      (get_summary_from_AI env₂.service "d" env₂.max_retries).1 = some s₂ →
      env₂.insertOk ⟨"f", "t",
        (⟨some "t", some "d", none⟩ : Entry).link.getD "", s₂,
        env₂.today⟩ = true →
      (processEntry env₂ "f" st₂ ⟨some "t", some "d", none⟩).store =
        st₂.store ++ [⟨"f", "t",
          (⟨some "t", some "d", none⟩ : Entry).link.getD "", s₂,
          env₂.today⟩]) :=
  failed_insert_leaves_title_free
    ⟨fun _ _ => Except.ok "sum", fun _ => false, 3, 1⟩ "f"
    ⟨[], initStats, []⟩ ⟨some "t", some "d", none⟩ "t" "d" "sum"
    rfl rfl rfl rfl rfl

/-! ### Summary non-emptiness (C7) -/

theorem summaryAttempts_some_of_service (service : ServiceCall)
    (sent : String) :
    ∀ (fuel attempt : Nat) (c : String),
      (summaryAttempts service sent attempt fuel).1 = some c →
      ∃ i, service i sent = .ok c := by
  intro fuel
  induction fuel with
  | zero => intro attempt c h; simp [summaryAttempts] at h
  | succ n ih =>
    intro attempt c h
    simp only [summaryAttempts] at h
    cases hcall : service attempt sent with
    | ok x =>
      rw [hcall] at h
      simp at h
      exact ⟨attempt, by rw [hcall, h]⟩
    | error u =>
      rw [hcall] at h
      simp at h
      exact ih (attempt + 1) c h

theorem processEntry_nonempty (env : Env) (fn : String) (st : ProcState)
    (e : Entry)
    (hserv : ∀ i text c, env.service i text = .ok c → c ≠ "")
    (h : NonEmptySummaries st.store) :
    NonEmptySummaries (processEntry env fn st e).store := by
  rcases e with ⟨t, d, l⟩
  cases t with
  | none => simpa [processEntry] using h
  | some t =>
    cases d with
    | none => simpa [processEntry] using h
    | some d =>
      simp only [processEntry]
      by_cases hex : existsTitle st.store t
      · simpa [hex] using h
      · simp only [hex, Bool.false_eq_true, if_false]
        cases hsum : (get_summary_from_AI env.service d env.max_retries).1
          with
        | none => simpa using h
        | some s =>
          have hs : s ≠ "" := by
            obtain ⟨i, hi⟩ := summaryAttempts_some_of_service env.service
              (truncateText d) env.max_retries 0 s hsum
            exact hserv i (truncateText d) s hi
          by_cases hins : env.insertOk
              { feed := fn, title := t, link := l.getD "",
                summary := s, created_date := env.today }
          · simp only [hins, if_true]
            intro r hr
            rcases List.mem_append.1 hr with hr | hr
            · exact h r hr
            · rw [List.mem_singleton.1 hr]
              exact hs
          · simpa [hins] using h

theorem processLoop_nonempty (env : Env) (fn : String) (n : Nat)
    (hserv : ∀ i text c, env.service i text = .ok c → c ≠ "") :
    ∀ (entries : List Entry) (i : Nat) (st : ProcState),
      NonEmptySummaries st.store →
      NonEmptySummaries (processLoop env fn n i st entries).store := by
  intro entries
  induction entries with
  | nil => intro i st h; simpa [processLoop] using h
  | cons e rest ih =>
    intro i st h
    simp only [processLoop]
    by_cases hle : n ≤ i
    · simpa [hle] using h
    · rw [if_neg hle]
      exact ih (i + 1) _ (processEntry_nonempty env fn st e hserv h)

theorem generate_summaries_nonempty (env : Env) (fetch : FeedResult)
    (fn : String) (s : Nat) (store : Store)
    (hserv : ∀ i text c, env.service i text = .ok c → c ≠ "")
    (h : NonEmptySummaries store) :
    NonEmptySummaries (generate_summaries env fetch fn s store).1 := by
  cases fetch with
  | timeout => simpa [generate_summaries] using h
  | fetchError => simpa [generate_summaries] using h
  | ok entries =>
    cases entries with
    | nil => simpa [generate_summaries] using h
    | cons e rest =>
      simpa [generate_summaries] using
        processLoop_nonempty env fn s hserv (e :: rest) 0
          ⟨store, initStats, []⟩ h

theorem runFeeds_nonempty (env : Env) (fetchOf : FetchOracle)
    (hserv : ∀ i text c, env.service i text = .ok c → c ≠ "") :
    ∀ (tasks : List FeedTask) (store : Store), NonEmptySummaries store →
      NonEmptySummaries (runFeeds env fetchOf tasks store).1 := by
  intro tasks
  induction tasks with
  | nil => intro store h; simpa [runFeeds] using h
  | cons t rest ih =>
    intro store h
    simp only [runFeeds]
    exact ih _ (generate_summaries_nonempty env (fetchOf t) t.name
      t.story_limit store hserv h)

theorem cleanup_nonempty (store : Store) (today days : Int)
    (h : NonEmptySummaries store) :
    NonEmptySummaries (cleanup_old_entries store today days).1 := by
  intro r hr
  exact h r (List.mem_of_mem_filter hr)

/-- Claim C7 counterexample: the Processor only guards against the absent
summary (the `None` check at src/core/main.py line 143), not against an
empty one: with a service whose successful response content is the empty
string, a run from the empty store persists a record whose `summary` is
`""`, so not every stored record has a non-empty summary string. -/
theorem stored_summary_can_be_empty :
    (generate_summaries ⟨fun _ _ => Except.ok "", fun _ => true, 3, 1⟩
        (.ok [⟨some "t", some "d", some "l"⟩]) "f" 1 []).1 =
      [⟨"f", "t", "l", "", 1⟩] ∧
    ¬ NonEmptySummaries (generate_summaries
        ⟨fun _ _ => Except.ok "", fun _ => true, 3, 1⟩
        (.ok [⟨some "t", some "d", some "l"⟩]) "f" 1 []).1 := by
  exact ⟨rfl, by decide⟩

/-- Claim C7 (amended): every record the Feed Processor stores carries as
summary the content of a successful summarizer response; hence, provided
the summarization service never returns an empty content and the initial
store has no empty summaries, every record in the store after a full run —
and in particular any record visible to the presentation layer's by-date
query — has a non-empty summary. -/
theorem summaries_nonempty_of_service_nonempty (env : Env)
    (fetchOf : FetchOracle) (tasks : List FeedTask) (days : Int)
    (store : Store)
    (hserv : ∀ i text c, env.service i text = .ok c → c ≠ "")
    (hstore : NonEmptySummaries store) :
    NonEmptySummaries (mainRun env fetchOf tasks days store).1 ∧
    ∀ d : Int, NonEmptySummaries
      (todays_news (mainRun env fetchOf tasks days store).1 d) := by
  have hmain : NonEmptySummaries (mainRun env fetchOf tasks days store).1 :=
    runFeeds_nonempty env fetchOf hserv tasks _
      (cleanup_nonempty store env.today days hstore)
  refine ⟨hmain, ?_⟩
  intro d r hr
  exact hmain r (List.mem_of_mem_filter hr)

/-- Witness for the amended C7: a concrete full run with a service whose
content is `"sum"` yields a store, and a by-date view of it, free of empty
summaries. -/
theorem summaries_nonempty_of_service_nonempty_witness :
    NonEmptySummaries (mainRun envScenario
      (fun _ => FeedResult.ok [⟨some "t", some "d", none⟩])
      [⟨"f", "u", 1⟩] 30 []).1 ∧
    ∀ d : Int, NonEmptySummaries (todays_news (mainRun envScenario
      (fun _ => FeedResult.ok [⟨some "t", some "d", none⟩])
      [⟨"f", "u", 1⟩] 30 []).1 d) :=
  summaries_nonempty_of_service_nonempty envScenario
    (fun _ => FeedResult.ok [⟨some "t", some "d", none⟩])
    [⟨"f", "u", 1⟩] 30 []
    (fun i text c h => by
      injection h with h2
      rw [← h2]
      decide)
    (by decide)

/-! ### The default-socket-timeout bracket (C8) -/

/-- Claim C8 counterexample: with the process-wide default socket timeout
initially unset and a 30-second feed timeout, a fetch whose parse raises
leaves the default socket timeout set to 30 — its value after the fetch
differs from its value before the fetch, so the fetch does not leave
global state untouched on every invocation. -/
theorem fetch_mutates_global_timeout :
    (fetchBlock 30 FetchOutcome.raises none).1 = some 30 ∧
    (fetchBlock 30 FetchOutcome.raises none).1 ≠ none :=
  ⟨rfl, by decide⟩

/-- Claim C8 (amended): the fetch brackets the parse by mutating the
process-wide default socket timeout: the prior value is saved, the feed
timeout (read from the `FEED_TIMEOUT` environment, not a per-call Fetcher
parameter) is installed, and the prior value is restored only when the
parse returns normally; after a fetch that raises, the default socket
timeout is left at the feed timeout instead of its prior value. -/
theorem fetchBlock_timeout_bracket (feedTimeout : Int)
    (sockTimeout : Option Int) (entries : List Entry) :
    (fetchBlock feedTimeout (.ok entries) sockTimeout).1 = sockTimeout ∧
    (fetchBlock feedTimeout .raises sockTimeout).1 = some feedTimeout :=
  ⟨rfl, rfl⟩

end NetNews
